import Mathlib

/-!
Verification of the `dr` soft-delete utility (src/main.rs) against its
specification.  The relevant parts of the program are shallowly embedded:

* The entry codec.  `drop_entries` builds the stored name with
  `format!("{now}_{}", abs_path)` (main.rs:276); every reader recovers the
  original path with `filename.split_once('_')` (main.rs:165, 188, 235).
  Strings are modelled as `List Char`; the decimal rendering of the
  timestamp is `natDigits`.

* The holding store is modelled as the list of stored names in the flat
  directory, and the per-entry control flow of `drop_entries`,
  `recover_entries` and `delete_entries` is modelled as functions over
  oracles that fix the outcome of each filesystem primitive
  (rename / copy / remove), exactly following the branch structure of the
  source.
-/

namespace Dr

/-- Rust `str::split_once(sep)` on a list of characters: splits at the
first occurrence of `sep`, returning the parts before and after it, or
`none` when `sep` does not occur (main.rs:165, 188, 235). -/
def splitOnce (sep : Char) : List Char → Option (List Char × List Char)
  | [] => none
  | c :: cs =>
    if c = sep then some ([], cs)
    else
      match splitOnce sep cs with
      | some (a, b) => some (c :: a, b)
      | none => none

/-- Fuel-driven decimal rendering of a natural number, most significant
digit first; `fuel > n` always suffices since `n` shrinks by `n / 10`. -/
def natDigitsAux : Nat → Nat → List Char → List Char
  | 0, _, acc => acc
  | fuel + 1, n, acc =>
    if n < 10 then Char.ofNat (48 + n % 10) :: acc
    else natDigitsAux fuel (n / 10) (Char.ofNat (48 + n % 10) :: acc)

/-- Decimal digit string of a natural number, as produced by Rust's
`format!("{now}_...")` for the `u64` timestamp (main.rs:276). -/
def natDigits (n : Nat) : List Char :=
  natDigitsAux (n + 1) n []

/-- One step of reading a decimal digit string back into a number. -/
def digitStep (acc : Nat) (c : Char) : Nat :=
  10 * acc + (c.toNat - 48)

/-- Numeric value of a decimal digit string (the inverse of `natDigits`). -/
def digitsToNat (l : List Char) : Nat :=
  l.foldl digitStep 0

/-- Entry codec, encoding direction: `"{timestamp}_{absolute_path}"`
(main.rs:276). -/
def encode (t : Nat) (p : List Char) : List Char :=
  natDigits t ++ '_' :: p

/-- Entry codec, decoding direction: split the stored name at the first
`'_'`; `none` when there is no separator (main.rs:165, 188, 235). -/
def decode (s : List Char) : Option (List Char × List Char) :=
  splitOnce '_' s

/-- What `list_entries` prints for one directory entry: the decoded
original path when the name parses, the raw stored name verbatim
otherwise (main.rs:165-169). -/
def listLine (n : List Char) : List Char :=
  match decode n with
  | some (_, originalName) => originalName
  | none => n

/-- `list_entries` over the whole holding directory (main.rs:153-170). -/
def listEntries (names : List (List Char)) : List (List Char) :=
  names.map listLine

/-- The scan-and-filter shared by `recover_entries` (main.rs:182-197) and
`delete_entries` (main.rs:229-244): keep every stored name that decodes,
paired with its decoded original path, whenever that path is among the
requested targets. -/
def locate (names targets : List (List Char)) :
    List (List Char × List Char) :=
  names.filterMap fun n =>
    match decode n with
    | some (_, originalName) =>
      if originalName ∈ targets then some (n, originalName) else none
    | none => none

/-! ### Codec lemmas -/

theorem splitOnce_append (sep : Char) (a b : List Char) (ha : sep ∉ a) :
    splitOnce sep (a ++ sep :: b) = some (a, b) := by
  induction a with
  | nil => simp [splitOnce]
  | cons c cs ih =>
    have hc : c ≠ sep := fun h => ha (h ▸ List.mem_cons_self c cs)
    have hcs : sep ∉ cs := fun h => ha (List.mem_cons_of_mem c h)
    simp [splitOnce, hc, ih hcs]

theorem splitOnce_eq_none (sep : Char) (l : List Char) (h : sep ∉ l) :
    splitOnce sep l = none := by
  induction l with
  | nil => rfl
  | cons c cs ih =>
    have hc : c ≠ sep := fun hcc => h (hcc ▸ List.mem_cons_self c cs)
    have hcs : sep ∉ cs := fun hm => h (List.mem_cons_of_mem c hm)
    simp [splitOnce, hc, ih hcs]

theorem digit_toNat (k : Nat) (h : k < 10) :
    (Char.ofNat (48 + k)).toNat = 48 + k := by
  interval_cases k <;> decide

theorem digit_ne_underscore (k : Nat) (h : k < 10) :
    Char.ofNat (48 + k) ≠ '_' := by
  interval_cases k <;> decide

theorem mem_natDigitsAux (fuel n : Nat) (acc : List Char) (c : Char)
    (hc : c ∈ natDigitsAux fuel n acc) :
    c ∈ acc ∨ ∃ k, k < 10 ∧ c = Char.ofNat (48 + k) := by
  induction fuel generalizing n acc with
  | zero => exact Or.inl hc
  | succ fuel ih =>
    simp only [natDigitsAux] at hc
    by_cases hn : n < 10
    · simp only [if_pos hn] at hc
      rcases List.mem_cons.mp hc with h | h
      · exact Or.inr ⟨n % 10, Nat.mod_lt n (by norm_num), h⟩
      · exact Or.inl h
    · simp only [if_neg hn] at hc
      rcases ih _ _ hc with h | h
      · rcases List.mem_cons.mp h with h | h
        · exact Or.inr ⟨n % 10, Nat.mod_lt n (by norm_num), h⟩
        · exact Or.inl h
      · exact Or.inr h

theorem underscore_not_mem_natDigits (n : Nat) : '_' ∉ natDigits n := by
  intro hmem
  rcases mem_natDigitsAux _ _ _ _ hmem with h | ⟨k, hk, hEq⟩
  · exact absurd h (List.not_mem_nil _)
  · exact digit_ne_underscore k hk hEq.symm

theorem natDigitsAux_spec (fuel : Nat) :
    ∀ n acc, n < fuel →
      ∃ ds, natDigitsAux fuel n acc = ds ++ acc ∧
        ∀ init, List.foldl digitStep init ds =
          init * 10 ^ ds.length + n := by
  induction fuel with
  | zero => intro n acc h; omega
  | succ fuel ih =>
    intro n acc h
    by_cases hn : n < 10
    · refine ⟨[Char.ofNat (48 + n % 10)], by simp [natDigitsAux, hn],
        fun init => ?_⟩
      have hv := digit_toNat (n % 10) (Nat.mod_lt n (by norm_num))
      simp only [List.foldl, digitStep, hv, List.length_singleton, pow_one]
      omega
    · rcases ih (n / 10) (Char.ofNat (48 + n % 10) :: acc) (by omega) with
        ⟨ds', hEq, hFold⟩
      refine ⟨ds' ++ [Char.ofNat (48 + n % 10)], ?_, fun init => ?_⟩
      · simp [natDigitsAux, hn, hEq]
      · have hv := digit_toNat (n % 10) (Nat.mod_lt n (by norm_num))
        rw [List.foldl_append, hFold init]
        simp only [List.foldl, digitStep, hv, List.length_append,
          List.length_singleton, pow_succ]
        have hgen : ∀ k : Nat,
            10 * (k + n / 10) + (48 + n % 10 - 48) = k * 10 + n := by
          intro k; omega
        calc 10 * (init * 10 ^ ds'.length + n / 10) + (48 + n % 10 - 48)
            = init * 10 ^ ds'.length * 10 + n := hgen _
          _ = init * (10 ^ ds'.length * 10) + n := by ring

theorem digitsToNat_natDigits (n : Nat) : digitsToNat (natDigits n) = n := by
  rcases natDigitsAux_spec (n + 1) n [] (by omega) with ⟨ds, hEq, hFold⟩
  unfold digitsToNat natDigits
  rw [hEq, List.append_nil, hFold 0]
  simp

/-! ### Claims about the codec: C1, C9, C10 -/

/-- C1: for every absolute path `p` and timestamp `t`, decoding the
encoded stored name yields exactly `(t, p)`: `encode` produces
`"{t}_{p}"`, `decode` splits at the first `'_'`, so the round trip
recovers the decimal timestamp string (whose numeric value is exactly
`t`) and the path `p` verbatim, even when `p` contains `'_'`. -/
theorem c1_decode_encode_roundtrip (t : Nat) (p : List Char) :
    decode (encode t p) = some (natDigits t, p) ∧
    digitsToNat (natDigits t) = t := by
  constructor
  · simp only [decode, encode]
    exact splitOnce_append '_' (natDigits t) p (underscore_not_mem_natDigits t)
  · exact digitsToNat_natDigits t

/-- C9: a stored name with no `'_'` decodes to nothing, is printed
verbatim by `list`, and is skipped by the recover/purge scan; none of
these operations fails on it (all modelled functions are total). -/
theorem c9_unparseable_skipped (n : List Char) (targets : List (List Char))
    (h : '_' ∉ n) :
    decode n = none ∧ listEntries [n] = [n] ∧ locate [n] targets = [] := by
  have hd : decode n = none := splitOnce_eq_none '_' n h
  refine ⟨hd, ?_, ?_⟩
  · simp [listEntries, listLine, hd]
  · simp [locate, hd]

theorem c9_witness :
    decode (['f', 'o', 'o']) = none ∧
    listEntries [['f', 'o', 'o']] = [['f', 'o', 'o']] ∧
    locate [['f', 'o', 'o']] [['b', 'a', 'r']] = [] :=
  c9_unparseable_skipped ['f', 'o', 'o'] [['b', 'a', 'r']] (by decide)

/-- C10: decode performs no numeric validation of the part before the
first `'_'`: any name of the form `a ++ '_' :: b` with `'_' ∉ a` decodes
to original path `b`, shows up in `list` output as `b`, and matches `b`
in the recover/purge scan (so a foreign name such as `"my_file"` is
treated as an entry for path `"file"`). -/
theorem c10_no_numeric_validation (a b : List Char)
    (targets : List (List Char)) (ha : '_' ∉ a) (hb : b ∈ targets) :
    decode (a ++ '_' :: b) = some (a, b) ∧
    listEntries [a ++ '_' :: b] = [b] ∧
    (a ++ '_' :: b, b) ∈ locate [a ++ '_' :: b] targets := by
  have hd : decode (a ++ '_' :: b) = some (a, b) := splitOnce_append '_' a b ha
  refine ⟨hd, ?_, ?_⟩
  · simp [listEntries, listLine, hd]
  · simp [locate, hd, hb]

theorem c10_witness :
    decode (['m', 'y'] ++ '_' :: ['f', 'i', 'l', 'e']) =
      some (['m', 'y'], ['f', 'i', 'l', 'e']) ∧
    listEntries [['m', 'y'] ++ '_' :: ['f', 'i', 'l', 'e']] =
      [['f', 'i', 'l', 'e']] ∧
    (['m', 'y'] ++ '_' :: ['f', 'i', 'l', 'e'], ['f', 'i', 'l', 'e']) ∈
      locate [['m', 'y'] ++ '_' :: ['f', 'i', 'l', 'e']]
        [['f', 'i', 'l', 'e']] :=
  c10_no_numeric_validation ['m', 'y'] ['f', 'i', 'l', 'e']
    [['f', 'i', 'l', 'e']] (by decide) (by decide)

/-! ### Holding store and the drop path (C2, C3, C4)

`drop_entries` (main.rs:261-311) computes
`stored_name = format!("{now}_{abs_path}")` with the same `now` for the
whole batch and then calls `fs::rename(filepath, root.join(stored_name))`
(main.rs:276-279).  Because `abs_path` is absolute, the stored name
contains `'/'`, so `Path::join` produces a NESTED destination such as
`/tmp/dr/100_/a/b/foo`.  A rename fails with `NotFound` when the parent
directory of its destination does not exist; the program only ever
creates `/tmp/dr` itself (main.rs:130-133), never the nested parents.
`NotFound ≠ CrossesDevices`, so such a failure takes the
"Failed to drop" arm (main.rs:303-305) and the entry is skipped. -/

/-- The holding directory `ROOT_DIR = "/tmp/dr"` (main.rs:12). -/
def rootDir : List Char := ['/', 't', 'm', 'p', '/', 'd', 'r']

/-- Rust `root.join(stored_name)` (main.rs:277) for a stored name with
no leading `'/'` (every stored name starts with a decimal digit):
the two are concatenated with a single separator. -/
def rootJoin (name : List Char) : List Char :=
  rootDir ++ '/' :: name

/-- The parent directory of a path: everything before the last `'/'`. -/
def parentDir (path : List Char) : List Char :=
  ((path.reverse.dropWhile fun c => !(c == '/')).drop 1).reverse

/-- `fs::rename(src, dst)` into the holding area, given the list `dirs`
of directories that exist and the list `entries` of objects already in
the holding area: it fails with `NotFound` (modelled as `none`) when the
parent directory of `dst` does not exist, and otherwise succeeds,
atomically replacing any existing object named `dst`. -/
def renameStep (dirs entries : List (List Char)) (dst : List Char) :
    Option (List (List Char)) :=
  if parentDir dst ∈ dirs then
    some (if dst ∈ entries then entries else entries ++ [dst])
  else none

/-- One iteration of the `drop_entries` loop for an existing source at
absolute path `p` at timestamp `t`, on a same-device filesystem whose
existing directories are `dirs` (main.rs:273-279 and the non-cross-device
error arm at main.rs:303-305): the destination is
`root.join(encode t p)`; on a rename error the entry is skipped and the
holding area is unchanged.  (The `CrossesDevices` arm is modelled
separately by `dropOne`.) -/
def dropPath (dirs : List (List Char)) (t : Nat) (p : List Char)
    (entries : List (List Char)) : List (List Char) :=
  match renameStep dirs entries (rootJoin (encode t p)) with
  | some es => es
  | none => entries

theorem dropWhile_reaches_slash (l m : List Char) (h : '/' ∈ l) :
    ∃ t, List.dropWhile (fun c => !(c == '/')) (l ++ m)
      = '/' :: (t ++ m) := by
  induction l with
  | nil => exact absurd h (List.not_mem_nil _)
  | cons c l' ih =>
    by_cases hc : c = '/'
    · subst hc
      exact ⟨l', by simp [List.dropWhile]⟩
    · have h' : '/' ∈ l' := by
        rcases List.mem_cons.mp h with h1 | h1
        · exact absurd h1.symm hc
        · exact h1
      rcases ih h' with ⟨t, ht⟩
      have hb : (c == '/') = false := beq_eq_false_iff_ne.mpr hc
      exact ⟨t, by simpa [List.dropWhile, hb] using ht⟩

theorem parentDir_rootJoin (name : List Char) (h : '/' ∈ name) :
    ∃ t, parentDir (rootJoin name) = rootDir ++ '/' :: t := by
  rcases dropWhile_reaches_slash name.reverse ('/' :: rootDir.reverse)
      (List.mem_reverse.mpr h) with ⟨t, ht⟩
  refine ⟨t.reverse, ?_⟩
  unfold parentDir rootJoin
  have hrev : (rootDir ++ '/' :: name).reverse
      = name.reverse ++ '/' :: rootDir.reverse := by
    simp
  rw [hrev, ht]
  simp

/-- For an absolute original path the stored name contains `'/'`, so the
rename destination is nested strictly below the holding directory: its
parent is not `/tmp/dr` itself. -/
theorem parentDir_rootJoin_ne_rootDir (name : List Char)
    (h : '/' ∈ name) : parentDir (rootJoin name) ≠ rootDir := by
  rcases parentDir_rootJoin name h with ⟨t, ht⟩
  rw [ht]
  intro hEq
  have hlen := congrArg List.length hEq
  simp at hlen

/-- In a program-only run the only directory the program guarantees is
`/tmp/dr` itself, so every drop of an absolute path fails with
`NotFound` and stores nothing. -/
theorem dropPath_program_only_fails (t : Nat) (p : List Char)
    (entries : List (List Char)) (h : '/' ∈ p) :
    dropPath [rootDir] t p entries = entries := by
  have hm : '/' ∈ encode t p :=
    List.mem_append.mpr (Or.inr (List.mem_cons_of_mem _ h))
  have hne := parentDir_rootJoin_ne_rootDir (encode t p) hm
  unfold dropPath renameStep
  simp [hne]

/-- C2 (code bug): at the concrete failing input — `/a/b/foo` dropped,
recreated, and dropped again at timestamp 100 — the program does not
produce two recoverable entries, nor even one: the rename destination
`/tmp/dr/100_/a/b/foo` is nested (the stored name contains `'/'`), its
parent `/tmp/dr/100_/a/b` never exists in a program-only run, so both
renames fail with `NotFound` ("Failed to drop") and the holding store
ends empty — zero recoverable entries instead of the required two. -/
theorem c2_double_drop_stores_nothing :
    dropPath [rootDir] 100 ['/', 'a', '/', 'b', '/', 'f', 'o', 'o']
        (dropPath [rootDir] 100 ['/', 'a', '/', 'b', '/', 'f', 'o', 'o']
          []) = [] ∧
    parentDir
        (rootJoin (encode 100 ['/', 'a', '/', 'b', '/', 'f', 'o', 'o']))
      ≠ rootDir := by
  constructor <;> decide

/-- Result of Rust's `fs::rename` in the drop path (main.rs:279-280):
success, failure with `ErrorKind::CrossesDevices`, or any other error. -/
inductive RenameRes
  | ok
  | crossDevice
  | otherErr
deriving DecidableEq, Repr

/-- Outcomes of the fallible filesystem primitives used by one iteration
of the `drop_entries` loop: the rename (main.rs:279), the copy
(main.rs:281-285), the removal of the source (main.rs:292-296), and —
when the stored copy is a plain file — the cleanup
`fs::remove_file(&stored_path)` (main.rs:300). -/
structure DropOracle where
  renameRes : RenameRes
  copyOk : Bool
  removeSrcOk : Bool
  removeDstFileOk : Bool
deriving DecidableEq, Repr

/-- State of the destination (the stored entry in the holding directory)
after one drop iteration. -/
inductive DestState
  | absent
  | partialCopy
  | fullCopy
  | movedOriginal
deriving DecidableEq, Repr

/-- Observable outcome of one iteration of the `drop_entries` loop for a
single entry. -/
structure DropResult where
  sourceExists : Bool
  removeSrcAttempted : Bool
  dest : DestState
  dropped : Bool
deriving DecidableEq, Repr

/-- One iteration of the `drop_entries` loop (main.rs:279-309), branch
for branch.  `isDir` is `filepath.is_dir()`.  On `CrossesDevices` the
code copies, then removes the source; if that removal fails it runs
`let _ = fs::remove_file(&stored_path)`, whose result is ignored and
which can only succeed when the stored copy is a plain file —
`remove_file` always fails on a directory. -/
def dropOne (isDir : Bool) (o : DropOracle) : DropResult :=
  match o.renameRes with
  | RenameRes.ok =>
    ⟨false, false, DestState.movedOriginal, true⟩
  | RenameRes.otherErr =>
    ⟨true, false, DestState.absent, false⟩
  | RenameRes.crossDevice =>
    if o.copyOk then
      if o.removeSrcOk then
        ⟨false, true, DestState.fullCopy, true⟩
      else
        if isDir then
          ⟨true, true, DestState.fullCopy, false⟩
        else if o.removeDstFileOk then
          ⟨true, true, DestState.absent, false⟩
        else
          ⟨true, true, DestState.fullCopy, false⟩
    else
      ⟨true, false, DestState.partialCopy, false⟩

/-- C3: in the cross-device fallback, when the copy into the holding
store fails, the iteration aborts for that entry: removal of the source
is never attempted, the source still exists, and the entry is not
reported as dropped. -/
theorem c3_copy_failure_preserves_source (isDir : Bool) (o : DropOracle)
    (hx : o.renameRes = RenameRes.crossDevice) (hc : o.copyOk = false) :
    (dropOne isDir o).sourceExists = true ∧
    (dropOne isDir o).removeSrcAttempted = false ∧
    (dropOne isDir o).dropped = false := by
  simp [dropOne, hx, hc]

theorem c3_witness :
    (DropOracle.mk RenameRes.crossDevice false true true).renameRes =
      RenameRes.crossDevice ∧
    (DropOracle.mk RenameRes.crossDevice false true true).copyOk = false ∧
    ((dropOne false (DropOracle.mk RenameRes.crossDevice false true true)).sourceExists = true ∧
     (dropOne false (DropOracle.mk RenameRes.crossDevice false true true)).removeSrcAttempted = false ∧
     (dropOne false (DropOracle.mk RenameRes.crossDevice false true true)).dropped = false) :=
  ⟨rfl, rfl,
    c3_copy_failure_preserves_source false
      (DropOracle.mk RenameRes.crossDevice false true true) rfl rfl⟩

/-- C4 (code bug): the claim says that whenever the post-copy deletion
of the source fails, the destination copy is deleted — for files AND
directories.  For a directory the cleanup on main.rs:300 calls
`fs::remove_file(&stored_path)` on a directory, which always fails (and
its result is discarded), so the full copy is retained in the holding
store while the original is also preserved: two copies remain.
Failing input: a directory entry, cross-device rename, successful copy,
failed source removal. -/
theorem c4_dir_copy_retained :
    dropOne true (DropOracle.mk RenameRes.crossDevice true false true) =
      ⟨true, true, DestState.fullCopy, false⟩ := by
  rfl

/-! ### The recover path (C5, C6)

`recover_entries` (main.rs:199-217) processes each matched
`(stored_path, original_path)` pair: it refuses when the original path
exists, then creates the missing parent directories, then performs a
single `fs::rename(&stored_path, &original_path)`.  Unlike
`drop_entries`, a rename failure of ANY kind — `CrossesDevices`
included — only prints an error and moves on: there is no
copy-then-delete branch in this function. -/

/-- Outcomes of the filesystem primitives used by one iteration of the
`recover_entries` loop: whether the original path currently exists
(main.rs:200), whether `create_dir_all` succeeds (main.rs:206), and the
result of the rename (main.rs:212). -/
structure RecoverOracle where
  originalExists : Bool
  mkdirOk : Bool
  renameRes : RenameRes
deriving DecidableEq, Repr

/-- The one line printed for a recover iteration. -/
inductive RecMsg
  | alreadyExists
  | mkdirFailed
  | renameFailed
  | recovered
deriving DecidableEq, Repr

/-- Observable outcome of one iteration of the `recover_entries` loop.
`fallbackRun` records whether a cross-device copy-then-delete fallback
was executed; `recover_entries` contains no such branch, so the
embedding sets it on no path. -/
structure RecoverResult where
  storedRemains : Bool
  originalRestored : Bool
  mkdirAttempted : Bool
  renameAttempted : Bool
  fallbackRun : Bool
  msg : RecMsg
deriving DecidableEq, Repr

/-- One iteration of the `recover_entries` loop (main.rs:199-217),
branch for branch. -/
def recoverOne (o : RecoverOracle) : RecoverResult :=
  if o.originalExists then
    ⟨true, false, false, false, false, RecMsg.alreadyExists⟩
  else if o.mkdirOk then
    match o.renameRes with
    | RenameRes.ok => ⟨false, true, true, true, false, RecMsg.recovered⟩
    | _ => ⟨true, false, true, true, false, RecMsg.renameFailed⟩
  else
    ⟨true, false, true, false, false, RecMsg.mkdirFailed⟩

/-- C5 counterexample: a matched entry whose original path is absent and
whose rename fails with `CrossesDevices` is NOT recovered by a
copy-then-delete fallback, contradicting the claim that recover falls
back just as drop does: only an error is reported, the stored entry
stays, and no fallback runs. -/
theorem c5_counterexample :
    recoverOne ⟨false, true, RenameRes.crossDevice⟩ =
      ⟨true, false, true, true, false, RecMsg.renameFailed⟩ ∧
    ¬ (recoverOne ⟨false, true, RenameRes.crossDevice⟩).fallbackRun = true := by
  constructor <;> decide

/-- C5 (amended): recover performs a single atomic rename per matched
entry and never runs a cross-device copy-then-delete fallback; it
restores the original exactly when the original path is absent, the
parent directories are created, and the rename itself succeeds — in
contrast with drop, which does complete via the fallback after a
cross-device rename failure. -/
theorem c5_recover_single_rename (o : RecoverOracle) (isDir : Bool) :
    (recoverOne o).fallbackRun = false ∧
    ((recoverOne o).originalRestored = true ↔
      o.originalExists = false ∧ o.mkdirOk = true ∧
        o.renameRes = RenameRes.ok) ∧
    (recoverOne o).storedRemains = !(recoverOne o).originalRestored ∧
    (dropOne isDir ⟨RenameRes.crossDevice, true, true, true⟩).dropped
      = true := by
  rcases o with ⟨oe, mk, rr⟩
  cases oe <;> cases mk <;> cases rr <;> simp [recoverOne, dropOne]

/-- C6: when the decoded original path of a matched entry currently
exists, recover fails for that entry with the "already exists" error and
touches nothing: no directory creation, no rename, the stored entry
remains and the existing file is not replaced. -/
theorem c6_recover_refuses_overwrite (o : RecoverOracle)
    (h : o.originalExists = true) :
    recoverOne o =
      ⟨true, false, false, false, false, RecMsg.alreadyExists⟩ := by
  simp [recoverOne, h]

theorem c6_witness :
    (RecoverOracle.mk true true RenameRes.ok).originalExists = true ∧
    recoverOne (RecoverOracle.mk true true RenameRes.ok) =
      ⟨true, false, false, false, false, RecMsg.alreadyExists⟩ :=
  ⟨rfl, c6_recover_refuses_overwrite (RecoverOracle.mk true true RenameRes.ok) rfl⟩

/-! ### Whole-batch processing over the holding store (C7, C8)

Both `recover_entries` and `delete_entries` first collect ALL matches
with `filter_map` into a `Vec` (main.rs:182-197, 229-244) and then run
their per-entry loop over every element of that vector. -/

/-- The `recover_entries` batch (main.rs:182-217): one iteration, hence
one printed outcome, per located match; `oracle` gives the filesystem
state seen at each decoded original path. -/
def recoverEntries (names targets : List (List Char))
    (oracle : List Char → RecoverOracle) :
    List ((List Char × List Char) × RecoverResult) :=
  (locate names targets).map fun m => (m, recoverOne (oracle m.2))

/-- The `delete_entries` batch (main.rs:229-258): one removal attempt,
hence one printed outcome, per located match; `removeOk` is the result
of `remove_dir_all` / `remove_file` on each stored path. -/
def deleteEntries (names targets : List (List Char))
    (removeOk : List Char → Bool) : List (List Char × Bool) :=
  (locate names targets).map fun m => (m.1, removeOk m.1)

/-- C7: every stored name that decodes to a requested original path is
returned by the scan-and-filter — multiple matches for the same path
included — and both the recover batch and the purge batch process each
such match (it appears, with its own outcome, in the batch's result). -/
theorem c7_all_matches_processed (names targets : List (List Char))
    (n tp orig : List Char) (f : List Char → RecoverOracle)
    (g : List Char → Bool) (hn : n ∈ names)
    (hd : decode n = some (tp, orig)) (ht : orig ∈ targets) :
    (n, orig) ∈ locate names targets ∧
    ((n, orig), recoverOne (f orig)) ∈ recoverEntries names targets f ∧
    (n, g n) ∈ deleteEntries names targets g := by
  have hloc : (n, orig) ∈ locate names targets := by
    simp only [locate, List.mem_filterMap]
    exact ⟨n, hn, by simp [hd, ht]⟩
  refine ⟨hloc, ?_, ?_⟩
  · simp only [recoverEntries, List.mem_map]
    exact ⟨(n, orig), hloc, rfl⟩
  · simp only [deleteEntries, List.mem_map]
    exact ⟨(n, orig), hloc, rfl⟩

theorem c7_witness :
    (['5', '_', '/', 'a'], ['/', 'a']) ∈
      locate [['5', '_', '/', 'a']] [['/', 'a']] ∧
    ((['5', '_', '/', 'a'], ['/', 'a']),
        recoverOne (RecoverOracle.mk false true RenameRes.ok)) ∈
      recoverEntries [['5', '_', '/', 'a']] [['/', 'a']]
        (fun _ => RecoverOracle.mk false true RenameRes.ok) ∧
    (['5', '_', '/', 'a'], true) ∈
      deleteEntries [['5', '_', '/', 'a']] [['/', 'a']] (fun _ => true) :=
  c7_all_matches_processed [['5', '_', '/', 'a']] [['/', 'a']]
    ['5', '_', '/', 'a'] ['5'] ['/', 'a']
    (fun _ => RecoverOracle.mk false true RenameRes.ok) (fun _ => true)
    (by decide) (by decide) (by decide)

/-- C8 counterexample: a recover or purge request for a path with zero
matches in the holding store produces no output at all — the batches
are empty, so nothing is reported for the path, contradicting the claim
that a zero-match path is reported.  Concrete input: the store holds
only an entry for `/b` and the request names `/a`. -/
theorem c8_counterexample :
    locate [['5', '_', '/', 'b']] [['/', 'a']] = [] ∧
    recoverEntries [['5', '_', '/', 'b']] [['/', 'a']]
      (fun _ => RecoverOracle.mk false true RenameRes.ok) = [] ∧
    deleteEntries [['5', '_', '/', 'b']] [['/', 'a']] (fun _ => true)
      = [] := by
  refine ⟨?_, ?_, ?_⟩ <;> rfl

/-- C8 (amended): the recover and purge loops run once per located
match and print one outcome per iteration, so a requested path with
zero matches is silently skipped: no message of any kind is produced
for it. -/
theorem c8_zero_matches_silent (names targets : List (List Char))
    (f : List Char → RecoverOracle) (g : List Char → Bool)
    (h : locate names targets = []) :
    recoverEntries names targets f = [] ∧
    deleteEntries names targets g = [] := by
  simp [recoverEntries, deleteEntries, h]

theorem c8_witness :
    recoverEntries [['5', '_', '/', 'c']] [['/', 'q']]
      (fun _ => RecoverOracle.mk false true RenameRes.ok) = [] ∧
    deleteEntries [['5', '_', '/', 'c']] [['/', 'q']] (fun _ => true)
      = [] :=
  c8_zero_matches_silent [['5', '_', '/', 'c']] [['/', 'q']]
    (fun _ => RecoverOracle.mk false true RenameRes.ok) (fun _ => true)
    (by decide)

end Dr
